import Mathlib

/-!
Verification of the MOSFiT synthetic-photometry core against its
natural-language specification.

The development shallowly embeds the relevant parts of
`mosfit/modules/observables/filters.py` and
`mosfit/modules/photospheres/tde_photosphere.py`:

* Python strings become `Str := List Char`; the Python operator `a in b`
  on strings (substring containment) becomes `isSubstr`.
* Numeric values become exact rationals `ℚ`; functions that are
  irrational on `ℚ` (`log10`, cube roots, real powers) are abstracted as
  function parameters, so every theorem quantifies over them.
* `np.trapz`, `np.interp`, `np.where`, `np.argmax` and Python `min`/`max`
  are embedded as the executable list functions below.
* Fallible operations (a `raise`, a list index that can be out of range)
  return `Option`.
-/

/-- Python strings, embedded as lists of characters. -/
def Str : Type := List Char

instance : DecidableEq Str := inferInstanceAs (DecidableEq (List Char))
instance : BEq Str := inferInstanceAs (BEq (List Char))
instance : LawfulBEq Str := inferInstanceAs (LawfulBEq (List Char))
instance : Inhabited Str := inferInstanceAs (Inhabited (List Char))

/-- Python `needle in haystack` for strings: substring containment.
`'' in s` is `True` for every `s`. -/
def isSubstr (needle : Str) : Str → Bool
  | [] => List.isEmpty needle
  | c :: rest => List.isPrefixOf needle (c :: rest) || isSubstr needle rest

/-- The empty string is a substring of every string (`'' in s` is `True`). -/
theorem isSubstr_nil (s : Str) : isSubstr [] s = true := by
  induction s with
  | nil => rfl
  | cons c rest ih => simp [isSubstr, List.isPrefixOf]

theorem isPrefixOf_self (l : List Char) : List.isPrefixOf l l = true := by
  induction l with
  | nil => rfl
  | cons c rest ih => simp [List.isPrefixOf, ih]

/-- Every string is a substring of itself (`s in s` is `True`). -/
theorem isSubstr_self (s : Str) : isSubstr s s = true := by
  cases s with
  | nil => rfl
  | cons c rest => simp [isSubstr, isPrefixOf_self]

/-- One registry entry of `Filters._unique_bands`, keeping the fields
`find_band_index` consults: `name`, `systems`, `instruments`, `bandsets`
(all strings after the construction loop assigns them). -/
structure BandEntry where
  name : Str
  systems : Str
  instruments : Str
  bandsets : Str
  deriving DecidableEq, Inhabited

/-- First condition of `find_band_index`: name equal, and requested
instrument, bandset and system each a substring of the entry's fields. -/
def tier1 (name instrument bandset system : Str) (b : BandEntry) : Bool :=
  name == b.name && isSubstr instrument b.instruments &&
    isSubstr bandset b.bandsets && isSubstr system b.systems

/-- Second condition of `find_band_index`: bandset ignored. -/
def tier2 (name instrument _bandset system : Str) (b : BandEntry) : Bool :=
  name == b.name && isSubstr instrument b.instruments && isSubstr system b.systems

/-- Third condition of `find_band_index`: instrument and bandset ignored. -/
def tier3 (name _instrument _bandset system : Str) (b : BandEntry) : Bool :=
  name == b.name && isSubstr system b.systems

/-- Fourth condition of `find_band_index`: the entry accepts the empty
string for instrument, bandset and system. -/
def tier4 (name _instrument _bandset _system : Str) (b : BandEntry) : Bool :=
  name == b.name && isSubstr [] b.instruments &&
    isSubstr [] b.bandsets && isSubstr [] b.systems

/-- An entry satisfies one of the four conditions checked (in order)
for each entry of the loop body of `Filters.find_band_index`. -/
def matchesAnyTier (name instrument bandset system : Str) (b : BandEntry) : Bool :=
  tier1 name instrument bandset system b ||
    tier2 name instrument bandset system b ||
    tier3 name instrument bandset system b ||
    tier4 name instrument bandset system b

/-- The scanning loop of `Filters.find_band_index`, carrying the current
index `bi`.  For each entry the four conditions are tried in order and
the current index is returned on the first success; reaching the end of
the registry models `raise ValueError` as `none`. -/
def findBandIndexFrom (name instrument bandset system : Str) :
    List BandEntry → Nat → Option Nat
  | [], _ => none
  | b :: rest, bi =>
    if tier1 name instrument bandset system b then some bi
    else if tier2 name instrument bandset system b then some bi
    else if tier3 name instrument bandset system b then some bi
    else if tier4 name instrument bandset system b then some bi
    else findBandIndexFrom name instrument bandset system rest (bi + 1)

/-- `Filters.find_band_index(name, instrument='', bandset='', system='')`. -/
def find_band_index (bands : List BandEntry)
    (name : Str) (instrument : Str := []) (bandset : Str := []) (system : Str := []) :
    Option Nat :=
  findBandIndexFrom name instrument bandset system bands 0

theorem findBandIndexFrom_cons_pos (name instrument bandset system : Str)
    (b : BandEntry) (rest : List BandEntry) (k : Nat)
    (h : matchesAnyTier name instrument bandset system b = true) :
    findBandIndexFrom name instrument bandset system (b :: rest) k = some k := by
  unfold matchesAnyTier at h
  unfold findBandIndexFrom
  split_ifs with h1 h2 h3 h4
  · rfl
  · rfl
  · rfl
  · rfl
  · simp [h1, h2, h3, h4] at h

theorem findBandIndexFrom_cons_neg (name instrument bandset system : Str)
    (b : BandEntry) (rest : List BandEntry) (k : Nat)
    (h : matchesAnyTier name instrument bandset system b = false) :
    findBandIndexFrom name instrument bandset system (b :: rest) k =
      findBandIndexFrom name instrument bandset system rest (k + 1) := by
  unfold matchesAnyTier at h
  rw [Bool.or_eq_false_iff, Bool.or_eq_false_iff, Bool.or_eq_false_iff] at h
  unfold findBandIndexFrom
  simp only [h.1.1.1, h.1.1.2, h.1.2, h.2, Bool.false_eq_true, if_false]
  cases rest <;> rfl

theorem findBandIndexFrom_none_iff (name instrument bandset system : Str)
    (bands : List BandEntry) (k : Nat) :
    findBandIndexFrom name instrument bandset system bands k = none ↔
      ∀ b ∈ bands, matchesAnyTier name instrument bandset system b = false := by
  induction bands generalizing k with
  | nil => simp [findBandIndexFrom]
  | cons b rest ih =>
    by_cases h : matchesAnyTier name instrument bandset system b = true
    · rw [findBandIndexFrom_cons_pos name instrument bandset system b rest k h]
      simp [h]
    · rw [Bool.not_eq_true] at h
      rw [findBandIndexFrom_cons_neg name instrument bandset system b rest k h]
      rw [ih (k + 1)]
      simp [h]

theorem findBandIndexFrom_some (name instrument bandset system : Str)
    (bands : List BandEntry) (k j : Nat)
    (h : findBandIndexFrom name instrument bandset system bands k = some j) :
    k ≤ j ∧ j - k < bands.length ∧
      matchesAnyTier name instrument bandset system
        (bands.getD (j - k) default) = true := by
  induction bands generalizing k with
  | nil => simp [findBandIndexFrom] at h
  | cons b rest ih =>
    by_cases hb : matchesAnyTier name instrument bandset system b = true
    · rw [findBandIndexFrom_cons_pos name instrument bandset system b rest k hb] at h
      obtain rfl : k = j := by injection h
      simp [hb]
    · rw [Bool.not_eq_true] at hb
      rw [findBandIndexFrom_cons_neg name instrument bandset system b rest k hb] at h
      obtain ⟨hk1, hlen, hmatch⟩ := ih (k + 1) h
      have hkj : k ≤ j := Nat.le_of_succ_le hk1
      refine ⟨hkj, ?_, ?_⟩
      · have : j - k = (j - (k + 1)) + 1 := by omega
        rw [this]
        simpa using hlen
      · have : j - k = (j - (k + 1)) + 1 := by omega
        rw [this]
        simpa using hmatch

/-- One value of the `filters` mapping of a rule in `filterrules.json`:
the base fields of a Band Definition before the construction loop
assigns its qualifiers.  `offset` models the optional `'offset'` key,
`svo` the optional `'SVO'` key (a catalog path), `path` the local file
path used when `'SVO'` is absent. -/
structure FilterDef where
  offset : Option ℚ
  svo : Option Str
  path : Str
  deriving DecidableEq, Inhabited

/-- One rule of `filterrules.json`: `rule.get('systems', [''])` is
modelled by `systems.getD [[]]` (an absent key defaults to the
one-element list holding the empty string), and likewise for
`instruments` and `bandsets`.  `filters` is the ordered mapping from
filter name to its `FilterDef`. -/
structure FilterRule where
  systems : Option (List Str)
  instruments : Option (List Str)
  bandsets : Option (List Str)
  filters : List (Str × FilterDef)
  deriving DecidableEq, Inhabited

/-- The list comprehension `sysinstperms` of `Filters.__init__`:
the cross product systems × instruments × bandsets of a rule, each axis
defaulting to `['']`. -/
def sysinstperms (r : FilterRule) : List (Str × Str × Str) :=
  (r.systems.getD [[]]).flatMap fun x =>
    (r.instruments.getD [[]]).flatMap fun y =>
      (r.bandsets.getD [[]]).map fun z => (x, y, z)

/-- The appends performed for one requested band and one rule (index
`ri`).  Each append of `Filters.__init__` pushes a REFERENCE to the dict
`rule['filters'][bnd]` — identified here by `(ri, fi)` with `fi` the
position of `bnd` in the rule's filter mapping — and then assigns that
dict's `'systems'`, `'instruments'`, `'bandsets'` and `'name'` keys from
the current permutation.  The log records, in program order, the
reference pushed and the key values written by that iteration. -/
def ruleAppends (band : Str) (ri : Nat) (r : FilterRule) :
    List ((Nat × Nat) × BandEntry) :=
  r.filters.enum.flatMap fun p =>
    if band == p.2.1 || band == ([] : Str) then
      (sysinstperms r).map fun q => ((ri, p.1), ⟨p.2.1, q.1, q.2.1, q.2.2⟩)
    else []

/-- The full append/write log of the `Filters.__init__` construction
loop, in program order: requested bands outermost, then rules, then the
rule's filters, then the permutations. -/
def buildWriteLog (bands : List Str) (rules : List FilterRule) :
    List ((Nat × Nat) × BandEntry) :=
  bands.flatMap fun band => rules.enum.flatMap fun p => ruleAppends band p.1 p.2

/-- The final key values held by the dict `d` after the whole loop: the
values of the LAST write to `d`, since every write to the same dict
object overwrites the previous one. -/
def lastWriteTo (log : List ((Nat × Nat) × BandEntry)) (d : Nat × Nat) :
    Option BandEntry :=
  (log.filterMap fun w => if w.1 == d then some w.2 else none).getLast?

/-- `self._unique_bands` as the code actually builds it: the list
entries are references into the rules' filter dicts, so reading entry
`i` after construction yields the LAST values written to the dict that
entry `i` references (Python aliasing: `band_list.append(...)` appends
the dict itself, not a copy). -/
def buildRegistry_code (bands : List Str) (rules : List FilterRule) :
    List BandEntry :=
  let log := buildWriteLog bands rules
  log.map fun w => (lastWriteTo log w.1).getD w.2

/-- The registry as the specification words it: one Band Definition per
(name, system, instrument, bandset) element of the cross product, each
emitted entry carrying exactly that combination's values. -/
def buildRegistry_spec (bands : List Str) (rules : List FilterRule) :
    List BandEntry :=
  (buildWriteLog bands rules).map fun w => w.2

/-- A requested band list and rule table exhibiting the aliasing: one
band `"V"`, one rule declaring two systems `"S1"`, `"S2"`. -/
def aliasBands : List Str := [['V']]

def aliasRules : List FilterRule :=
  [⟨some [['S', '1'], ['S', '2']], none, none,
    [(['V'], ⟨none, none, ['v']⟩)]⟩]

/-- `np.trapz(y, dx=dx)`: trapezoidal rule with uniform spacing. -/
def trapzDx (dx : ℚ) : List ℚ → ℚ
  | y1 :: y2 :: rest => dx * (y1 + y2) / 2 + trapzDx dx (y2 :: rest)
  | _ => 0

/-- `np.trapz(y, x)`: trapezoidal rule against the sample points `x`. -/
def trapzXY : List ℚ → List ℚ → ℚ
  | y1 :: y2 :: ys, x1 :: x2 :: xs => (x2 - x1) * (y1 + y2) / 2 + trapzXY (y2 :: ys) (x2 :: xs)
  | _, _ => 0

/-- One point of `np.interp`: clamp to the first value left of the
table, to the last value right of it, and interpolate linearly on the
first interval containing `x` otherwise.  (`np.interp` is only called on
nonempty tables; the `[]` case is unreachable.) -/
def interpPoint (x : ℚ) : List (ℚ × ℚ) → ℚ
  | [] => 0
  | [p] => p.2
  | p :: q :: rest =>
    if x < p.1 then p.2
    else if x ≤ q.1 then p.2 + (q.2 - p.2) * (x - p.1) / (q.1 - p.1)
    else interpPoint x (q :: rest)

/-- `np.interp(xs, xp, fp)`. -/
def npInterp (xs xp fp : List ℚ) : List ℚ :=
  xs.map fun x => interpPoint x (xp.zip fp)

/-- Python `min(l)` on a list of numbers; `none` models the `ValueError`
on an empty list. -/
def pymin : List ℚ → Option ℚ
  | [] => none
  | x :: xs => some (xs.foldl min x)

/-- Python `max(l)` on a list of numbers. -/
def pymax : List ℚ → Option ℚ
  | [] => none
  | x :: xs => some (xs.foldl max x)

/-- Modelled from the spec: `MagnitudeScale = 2.5` — the constant
`MAG_FAC` imported from `mosfit.constants`, whose source file is not
part of this excerpt. -/
def MAG_FAC : ℚ := 5 / 2

/-- `Filters.abmag(eff_fluxes, offsets)`.  `np.inf` is modelled by `⊤`
in `WithTop ℚ`; `log10` and the AB zero-point constant `AB_OFFSET` (an
irrational `mosfit.constants` value) are parameters. -/
def abmag (log10 : ℚ → ℚ) (AB_OFFSET dist_const : ℚ)
    (eff_fluxes offsets : List ℚ) : List (WithTop ℚ) :=
  (eff_fluxes.zip offsets).map fun p =>
    if p.1 = 0 then ⊤
    else ((AB_OFFSET - p.2 - MAG_FAC * (log10 p.1 - dist_const) : ℚ) : WithTop ℚ)

/-- `self._dist_const = np.log10(FOUR_PI * (lumdist * MPC_CGS)**2)`:
the distance constant of one `process` batch.  `FOUR_PI` (the real
number 4π) and `MPC_CGS` (centimeters per megaparsec) are the
`mosfit.constants` values, kept as parameters. -/
def dist_const_def (log10 : ℚ → ℚ) (FOUR_PI MPC_CGS lumdist : ℚ) : ℚ :=
  log10 (FOUR_PI * (lumdist * MPC_CGS) ^ 2)

/-- The registry fields of a `Filters` instance: the per-band data
populated by `Filters.__init__` and read (only) by `process`. -/
structure FiltersState where
  unique_bands : List BandEntry
  band_wavelengths : List (List ℚ)
  transmissions : List (List ℚ)
  min_waves : List ℚ
  max_waves : List ℚ
  filter_integrals : List ℚ
  band_offsets : List ℚ
  deriving DecidableEq, Inhabited

/-- The keyword arguments one `Filters.process` call receives. -/
structure ProcessKwargs where
  all_bands : List Str
  samplewavelengths : List (List ℚ)
  lumdist : ℚ
  luminosities : List ℚ
  seds : List (List ℚ)
  systems : List Str
  instruments : List Str
  bandsets : List Str
  deriving DecidableEq, Inhabited

/-- The `self._dxs` loop of `Filters.process`: one entry PER
OBSERVATION, the spacing of the first two points of that observation's
band's sampling grid.  A list index out of range models Python's
`IndexError` as `none`. -/
def processDxs (kw : ProcessKwargs) (band_indices : List Nat) : Option (List ℚ) :=
  band_indices.mapM fun bi => do
    let wavs ← kw.samplewavelengths[bi]?
    let w1 ← wavs[1]?
    let w0 ← wavs[0]?
    pure (w1 - w0)

/-- The effective-flux loop of `Filters.process`, as the code performs
it: for observation `li` with band index `bi`, the transmission curve is
interpolated onto the band's sampling grid, multiplied pointwise with
the observation's SED, integrated with `np.trapz(yvals, dx=self._dxs[bi])`
— the per-observation `_dxs` list indexed by the BAND index — and
divided by the band's integral.  Returns the `(eff_flux, offset)` pairs. -/
def effFluxPairs_code (st : FiltersState) (kw : ProcessKwargs)
    (band_indices : List Nat) (dxs : List ℚ) : Option (List (ℚ × ℚ)) :=
  (List.range kw.luminosities.length).mapM fun li => do
    let bi ← band_indices[li]?
    let offset ← st.band_offsets[bi]?
    let wavs ← kw.samplewavelengths[bi]?
    let bw ← st.band_wavelengths[bi]?
    let tr ← st.transmissions[bi]?
    let itrans := npInterp wavs bw tr
    let sed ← kw.seds[li]?
    let yvals := (itrans.zip sed).map fun p => p.1 * p.2
    let dx ← dxs[bi]?
    let integ ← st.filter_integrals[bi]?
    pure (trapzDx dx yvals / integ, offset)

/-- The effective-flux loop as the specification words it: identical to
`effFluxPairs_code` except that the trapezoidal step is the spacing of
the first two points of THIS observation's wavelength grid, i.e. the
`_dxs` entry of the observation (`dxs[li]`), not of the band (`dxs[bi]`). -/
def effFluxPairs_spec (st : FiltersState) (kw : ProcessKwargs)
    (band_indices : List Nat) (dxs : List ℚ) : Option (List (ℚ × ℚ)) :=
  (List.range kw.luminosities.length).mapM fun li => do
    let bi ← band_indices[li]?
    let offset ← st.band_offsets[bi]?
    let wavs ← kw.samplewavelengths[bi]?
    let bw ← st.band_wavelengths[bi]?
    let tr ← st.transmissions[bi]?
    let itrans := npInterp wavs bw tr
    let sed ← kw.seds[li]?
    let yvals := (itrans.zip sed).map fun p => p.1 * p.2
    let dx ← dxs[li]?
    let integ ← st.filter_integrals[bi]?
    pure (trapzDx dx yvals / integ, offset)

/-- The band-resolution step of `Filters.process`:
`self._band_indices = list(map(self.find_band_index, self._bands))`
(each band resolved by name only, the other criteria left at `''`). -/
def processBandIndices (st : FiltersState) (kw : ProcessKwargs) : Option (List Nat) :=
  kw.all_bands.mapM fun b => find_band_index st.unique_bands b

/-- The flux pipeline of `Filters.process` up to the `(eff_flux, offset)`
pairs, with the code's `dxs[bi]` indexing. -/
def processFluxes (st : FiltersState) (kw : ProcessKwargs) : Option (List (ℚ × ℚ)) := do
  let band_indices ← processBandIndices st kw
  let dxs ← processDxs kw band_indices
  effFluxPairs_code st kw band_indices dxs

/-- The flux pipeline as the specification words it (per-observation
trapezoidal step). -/
def processFluxes_spec (st : FiltersState) (kw : ProcessKwargs) : Option (List (ℚ × ℚ)) := do
  let band_indices ← processBandIndices st kw
  let dxs ← processDxs kw band_indices
  effFluxPairs_spec st kw band_indices dxs

/-- The full mutable state of a `Filters` instance: the registry fields
plus the per-call fields `process` assigns (`self._bands`,
`self._band_indices`, `self._dxs`, `self._dist_const`,
`self._luminosities`, `self._systems`, `self._instruments`,
`self._bandsets`). -/
structure FiltersFullState where
  registry : FiltersState
  bands : List Str
  band_indices : List Nat
  dxs : List ℚ
  dist_const : ℚ
  luminosities : List ℚ
  systems : List Str
  instruments : List Str
  bandsets : List Str
  deriving DecidableEq, Inhabited

/-- `Filters.process(**kwargs)` as a state transformer: it assigns the
per-call fields, computes the effective fluxes and returns
`{'model_magnitudes': mags}`; the registry fields are only read. -/
def process (log10 : ℚ → ℚ) (FOUR_PI MPC_CGS AB_OFFSET : ℚ)
    (fs : FiltersFullState) (kw : ProcessKwargs) :
    Option (FiltersFullState × List (WithTop ℚ)) := do
  let band_indices ← processBandIndices fs.registry kw
  let dxs ← processDxs kw band_indices
  let dc := dist_const_def log10 FOUR_PI MPC_CGS kw.lumdist
  let pairs ← effFluxPairs_code fs.registry kw band_indices dxs
  let eff_fluxes := pairs.map Prod.fst
  let offsets := pairs.map Prod.snd
  let fs' : FiltersFullState :=
    { fs with
      bands := kw.all_bands
      band_indices := band_indices
      dxs := dxs
      dist_const := dc
      luminosities := kw.luminosities
      systems := kw.systems
      instruments := kw.instruments
      bandsets := kw.bandsets }
  pure (fs', abmag log10 AB_OFFSET dc eff_fluxes offsets)

/-- The per-band quantities `Filters.__init__` derives from the loaded
`(wavelength, transmission)` rows. -/
structure LoadedBand where
  wavelengths : List ℚ
  transmission : List ℚ
  min_wavelength : ℚ
  max_wavelength : ℚ
  integral : ℚ
  deriving DecidableEq, Inhabited

/-- The population step of `Filters.__init__` for one band:
`zip(*rows)` splits the rows into the two columns (raising on an empty
table, modelled by `none`), then
`min`, `max` and `np.trapz(transmission, wavelengths)` are taken. -/
def loadBand (rows : List (ℚ × ℚ)) : Option LoadedBand :=
  match rows with
  | [] => none
  | r :: rs =>
    let wavelengths := (r :: rs).map Prod.fst
    let transmission := (r :: rs).map Prod.snd
    some ⟨wavelengths, transmission,
      (rs.map Prod.fst).foldl min r.1,
      (rs.map Prod.fst).foldl max r.1,
      trapzXY transmission wavelengths⟩

/-- The trapezoidal area under a sampled curve, written as the
specification describes it: the sum over consecutive samples of
(width × mean height). -/
def trapezoidArea (xs ys : List ℚ) : ℚ :=
  ∑ i ∈ Finset.range (xs.length - 1),
    (xs.getD (i + 1) 0 - xs.getD i 0) * (ys.getD i 0 + ys.getD (i + 1) 0) / 2

/-- The zero-point loop of `Filters.__init__` for one SVO band.
`systems` is `['AB']` plus the band's native photometric system when
that differs from `'AB'`; for each system the downloaded table
contributes one `ZeroPoint` flux (abstracted as `zpflux`), appended to
`zpfluxes`; for a non-AB system
`2.5 * log10(zpfluxes[0] / zpfluxes[-1])` is appended to `zps`, which
starts as `[0.0]`.  Download, caching and XML parsing are I/O and are
abstracted into `zpflux`. -/
def zpsFold (log10 : ℚ → ℚ) (zpflux : Str → ℚ) (systems : List Str) : List ℚ × List ℚ :=
  systems.foldl
    (fun acc sys =>
      let zpfluxes := acc.1 ++ [zpflux sys]
      if sys == (['A', 'B'] : Str) then (zpfluxes, acc.2)
      else
        (zpfluxes,
          acc.2 ++ [5 / 2 * log10 (zpfluxes.headD 0 / zpfluxes.getLastD 0)]))
    ([], [0])

/-- The system list of the zero-point loop: `systems = ['AB']`, then the
band's native photometric system is appended when not already present. -/
def zpSystems (photsystem : Str) : List Str :=
  if photsystem == (['A', 'B'] : Str) then [['A', 'B']]
  else [['A', 'B'], photsystem]

/-- The last element of `zps` after the loop, the value
`Filters.__init__` uses as the derived zero-point offset. -/
def zpsLast (log10 : ℚ → ℚ) (zpflux : Str → ℚ) (photsystem : Str) : ℚ :=
  (zpsFold log10 zpflux (zpSystems photsystem)).2.getLastD 0

/-- The offset-resolution step of `Filters.__init__`:
`if 'offset' in band: ... elif 'SVO' in band: ... ` (else the initial
`0.0` stands). -/
def bandOffset (fd : FilterDef) (zps_last : ℚ) : ℚ :=
  match fd.offset with
  | some o => o
  | none =>
    match fd.svo with
    | some _ => zps_last
    | none => 0

/-- The Thomson opacity of `tde_photosphere.process`:
`kappa_t = 0.2 * (1 + 0.74)`. -/
def kappa_t : ℚ := 1 / 5 * (1 + 37 / 50)

/-- `np.argmax`: index of the first maximal element (0 on an empty
array, matching the use here only on nonempty data). -/
def argmaxIdx (l : List ℚ) : Nat :=
  match l with
  | [] => 0
  | x :: xs =>
    (xs.foldl
      (fun acc y =>
        let (bestIdx, bestVal, curIdx) := acc
        if bestVal < y then (curIdx, y, curIdx + 1) else (bestIdx, bestVal, curIdx + 1))
      ((0 : Nat), x, (1 : Nat))).1

/-- `np.where(cond_gt, hi, lo)` elementwise on two equal-length arrays:
`np.where(rphot2 > rphotmax, rphotmax, rphot2)`. -/
def npWhereGt (rphot2 rphotmax : List ℚ) : List ℚ :=
  (rphot2.zip rphotmax).map fun p => if p.1 > p.2 then p.2 else p.1

/-- `tde_photosphere.process`, restricted to the returned photosphere
radius `rphot`.  Irrational scalar operations are parameters: `cbrt` is
`x ↦ x**(1/3)`, `powl` is `x ↦ x**self._l`, and `Gval`, `Msun`, `Cval`,
`pival`, `DAYval` stand for the physical constants `c.G.cgs.value`,
`M_SUN_CGS`, `C_CGS`, `np.pi`, `DAY_CGS`.  `Mh` is `kwargs['bhmass']`
and `Rph0` the already-exponentiated `self._Rph_0`.
`ilumzero = len(np.where(luminosities <= 0)[0])` is the COUNT of
non-positive luminosities; when it equals the array length every
luminosity is non-positive and the constant branch is taken.  In the
main branch `rphot2` is clamped below at `rphotmin = r_isco` by the mask
assignment, while `np.where(rphot2 > rphotmax, rphotmax, rphot2)` is
computed and its result discarded, exactly as in the source. -/
def tdeRphot (cbrt powl : ℚ → ℚ) (Gval Msun Cval pival DAYval : ℚ)
    (Mh Rph0 : ℚ) (times luminosities : List ℚ) : List ℚ :=
  let Ledd := 4 * pival * Gval * Mh * Msun * Cval / kappa_t
  let r_isco := 6 * Gval * Mh * Msun / (Cval * Cval)
  let rphotmin := r_isco
  let ilumzero := luminosities.countP fun x => decide (x ≤ 0)
  if ilumzero = luminosities.length then
    (List.replicate luminosities.length (1 : ℚ)).map fun o => o * rphotmin
  else
    let tpeak := times.getD (argmaxIdx luminosities) 0
    let til := times.getD ilumzero 0
    let a_p := cbrt (Gval * Mh * Msun * ((tpeak - til) * DAYval / pival) ^ 2)
    let a_t := (times.drop ilumzero).map fun t =>
      cbrt (Gval * Mh * Msun * ((t - til) * DAYval / pival) ^ 2)
    let rphotmax := a_t.map fun x => 2 * x
    let rphot1 := (List.replicate ilumzero (1 : ℚ)).map fun o => o * rphotmin
    let rphot2raw := (luminosities.drop ilumzero).map fun L =>
      powl (Rph0 * a_p * L / Ledd)
    let rphot2 := rphot2raw.map fun x => if x < rphotmin then rphotmin else x
    let _unassigned := npWhereGt rphot2 rphotmax
    rphot1 ++ rphot2

/-- The minimum radius of `tde_photosphere.process`:
`rphotmin = r_isco = 6 * G * Mh * M_SUN_CGS / C_CGS**2`. -/
def tdeRphotmin (Gval Msun Cval Mh : ℚ) : ℚ :=
  6 * Gval * Mh * Msun / (Cval * Cval)

/-- C2 counterexample registry: the fully-unqualified default for `"V"`
registered FIRST, then the entry qualified by system `"S"` and
instrument `"I"`. -/
def c2DefaultFirst : List BandEntry :=
  [⟨['V'], [], [], []⟩, ⟨['V'], ['S'], ['I'], []⟩]

/-- C2 (counterexample): with the default entry registered first, a
request for `"V"` with matching instrument `"I"` and system `"S"`
resolves to index 0 — the DEFAULT entry — because the fourth condition
is checked on each entry before the scan moves on, refuting "returns the
index of the qualified entry, never the index of the default entry ...
in either registration order". -/
theorem C2_counterexample_default_wins :
    find_band_index c2DefaultFirst ['V'] ['I'] [] ['S'] = some 0 ∧
      c2DefaultFirst.getD 0 default = ⟨['V'], [], [], []⟩ ∧
      c2DefaultFirst.getD 1 default = ⟨['V'], ['S'], ['I'], []⟩ ∧
      some 0 ≠ some 1 := by decide

/-- C2 (amended): `find_band_index` is first-match-wins over REGISTRY
ORDER, all four conditions being tried on each entry in turn: when the
qualified entry precedes the default it is returned (its first condition
matches), but when the default precedes the qualified entry the default
is returned (its fourth condition matches before the qualified entry is
examined). -/
theorem C2_first_match_wins (n i s : Str) :
    find_band_index [⟨n, s, i, []⟩, ⟨n, [], [], []⟩] n i [] s = some 0 ∧
      find_band_index [⟨n, [], [], []⟩, ⟨n, s, i, []⟩] n i [] s = some 0 := by
  constructor
  · apply findBandIndexFrom_cons_pos
    have h1 : tier1 n i [] s ⟨n, s, i, []⟩ = true := by
      unfold tier1
      simp [isSubstr_self, isSubstr_nil]
    unfold matchesAnyTier
    simp [h1]
  · apply findBandIndexFrom_cons_pos
    have h4 : tier4 n i [] s ⟨n, [], [], []⟩ = true := by
      unfold tier4
      simp [isSubstr_nil]
    unfold matchesAnyTier
    simp [h4]

/-- C6: `find_band_index` fails (raises, modelled by `none`) exactly
when no registry entry satisfies any of the four matching conditions for
the request, and on success the returned index is a valid registry index
whose entry satisfies one of the conditions. -/
theorem C6_find_band_index_error_characterization (bands : List BandEntry)
    (n i bs s : Str) :
    (find_band_index bands n i bs s = none ↔
      ∀ b ∈ bands, matchesAnyTier n i bs s b = false) ∧
    ∀ j, find_band_index bands n i bs s = some j →
      j < bands.length ∧ matchesAnyTier n i bs s (bands.getD j default) = true := by
  constructor
  · exact findBandIndexFrom_none_iff n i bs s bands 0
  · intro j hj
    have h := findBandIndexFrom_some n i bs s bands 0 j hj
    simpa using h

/-- C6 witness: on a one-entry registry holding the band `"V"`, the
request for `"V"` succeeds with the valid index 0 and a satisfied
matching condition. -/
theorem C6_witness :
    0 < ([(⟨['V'], [], [], []⟩ : BandEntry)] : List BandEntry).length ∧
      matchesAnyTier ['V'] [] [] []
        (([(⟨['V'], [], [], []⟩ : BandEntry)] : List BandEntry).getD 0 default) = true :=
  (C6_find_band_index_error_characterization
    [⟨['V'], [], [], []⟩] ['V'] [] [] []).2 0 (by decide)

/-- C5: for every `(F, offset)` pair given to `abmag`, the reported
magnitude is `+infinity` (`⊤`) when `F = 0`, and otherwise equals
`AB_OFFSET - offset - 2.5 * (log10 F - dist_const)` with
`dist_const = log10(FOUR_PI * (lumdist * MPC_CGS)^2)` — the base-10 log
of 4π d² for the batch luminosity distance d in centimeters.  A zero
flux is defined behavior, not an error. -/
theorem C5_abmag_formula (log10 : ℚ → ℚ) (AB_OFFSET FOUR_PI MPC_CGS lumdist : ℚ)
    (eff_fluxes offsets : List ℚ) (k : Nat) (F y : ℚ)
    (h : (eff_fluxes.zip offsets)[k]? = some (F, y)) :
    (abmag log10 AB_OFFSET (dist_const_def log10 FOUR_PI MPC_CGS lumdist)
        eff_fluxes offsets)[k]? =
      some (if F = 0 then (⊤ : WithTop ℚ)
        else ((AB_OFFSET - y - MAG_FAC *
          (log10 F - log10 (FOUR_PI * (lumdist * MPC_CGS) ^ 2)) : ℚ) : WithTop ℚ)) := by
  unfold abmag dist_const_def
  rw [List.getElem?_map, h]
  by_cases hF : F = 0 <;> simp [hF]

/-- C5 witness: a zero effective flux at position 0 yields `⊤`. -/
theorem C5_witness :
    (abmag id 0 (dist_const_def id 1 1 1) [0, 10] [0, 0])[0]? = some (⊤ : WithTop ℚ) := by
  have h := C5_abmag_formula id 0 1 1 1 [0, 10] [0, 0] 0 0 0 (by decide)
  simpa using h

theorem zpsLast_characterization (log10 : ℚ → ℚ) (zpflux : Str → ℚ) (photsystem : Str) :
    zpsLast log10 zpflux photsystem =
      if photsystem = ['A', 'B'] then 0
      else 5 / 2 * log10 (zpflux ['A', 'B'] / zpflux photsystem) := by
  by_cases hps : photsystem = ['A', 'B']
  · subst hps
    simp [zpsLast, zpSystems, zpsFold]
  · have hbeq : (photsystem == (['A', 'B'] : Str)) = false := by
      exact beq_eq_false_iff_ne.mpr hps
    simp [zpsLast, zpSystems, zpsFold, hbeq, hps]

/-- C7: the offset stored for a band is resolved by a three-way
priority: the explicitly configured offset when the `'offset'` key is
present; otherwise, for a remote-catalog (`'SVO'`) source, the derived
zero-point offset `2.5 * log10(ABflux / nativeflux)` — or `0` when the
native photometric system is AB itself; otherwise `0`. -/
theorem C7_offset_priority (log10 : ℚ → ℚ) (zpflux : Str → ℚ)
    (fd : FilterDef) (photsystem : Str) :
    (∀ o, fd.offset = some o →
      bandOffset fd (zpsLast log10 zpflux photsystem) = o) ∧
    (fd.offset = none → ∀ p, fd.svo = some p →
      bandOffset fd (zpsLast log10 zpflux photsystem) =
        (if photsystem = ['A', 'B'] then 0
         else 5 / 2 * log10 (zpflux ['A', 'B'] / zpflux photsystem))) ∧
    (fd.offset = none → fd.svo = none →
      bandOffset fd (zpsLast log10 zpflux photsystem) = 0) := by
  refine ⟨?_, ?_, ?_⟩
  · intro o ho
    simp [bandOffset, ho]
  · intro ho p hp
    rw [← zpsLast_characterization log10 zpflux photsystem]
    simp [bandOffset, ho, hp]
  · intro ho hp
    simp [bandOffset, ho, hp]

/-- C7 witness: an explicit configured offset of 3 wins the priority. -/
theorem C7_witness :
    bandOffset ⟨some 3, none, []⟩ (zpsLast id (fun _ => 1) ['A', 'B']) = 3 :=
  (C7_offset_priority id (fun _ => 1) ⟨some 3, none, []⟩ ['A', 'B']).1 3 rfl

/-- C9: `process` leaves every registry field unchanged — band entries,
wavelength and transmission sequences, minimum and maximum wavelengths,
filter integrals and band offsets are identical before and after the
call; its only effect is the returned magnitude sequence (plus the
per-call engine fields). -/
theorem C9_process_preserves_registry (log10 : ℚ → ℚ)
    (FOUR_PI MPC_CGS AB_OFFSET : ℚ) (fs fs' : FiltersFullState)
    (kw : ProcessKwargs) (mags : List (WithTop ℚ))
    (h : process log10 FOUR_PI MPC_CGS AB_OFFSET fs kw = some (fs', mags)) :
    fs'.registry.unique_bands = fs.registry.unique_bands ∧
    fs'.registry.band_wavelengths = fs.registry.band_wavelengths ∧
    fs'.registry.transmissions = fs.registry.transmissions ∧
    fs'.registry.min_waves = fs.registry.min_waves ∧
    fs'.registry.max_waves = fs.registry.max_waves ∧
    fs'.registry.filter_integrals = fs.registry.filter_integrals ∧
    fs'.registry.band_offsets = fs.registry.band_offsets := by
  have hreg : fs'.registry = fs.registry := by
    unfold process at h
    cases hbi : processBandIndices fs.registry kw with
    | none =>
      rw [hbi] at h
      simp only [Option.bind_eq_bind, Option.none_bind] at h
      exact Option.noConfusion h
    | some bis =>
      rw [hbi] at h
      simp only [Option.bind_eq_bind, Option.some_bind] at h
      cases hdx : processDxs kw bis with
      | none =>
        rw [hdx] at h
        simp only [Option.bind_eq_bind, Option.none_bind] at h
        exact Option.noConfusion h
      | some dxs =>
        rw [hdx] at h
        simp only [Option.bind_eq_bind, Option.some_bind] at h
        cases hp : effFluxPairs_code fs.registry kw bis dxs with
        | none =>
          rw [hp] at h
          simp only [Option.bind_eq_bind, Option.none_bind] at h
          exact Option.noConfusion h
        | some pairs =>
          rw [hp] at h
          simp only [Option.bind_eq_bind, Option.some_bind, Option.pure_def,
            Option.some.injEq, Prod.mk.injEq] at h
          obtain ⟨hfs, -⟩ := h
          rw [← hfs]
  rw [hreg]
  exact ⟨rfl, rfl, rfl, rfl, rfl, rfl, rfl⟩

/-- C9 witness: on the empty batch over the default state, `process`
succeeds and the registry is untouched. -/
theorem C9_witness :
    (default : FiltersFullState).registry.unique_bands =
        (default : FiltersFullState).registry.unique_bands ∧
      (default : FiltersFullState).registry.band_wavelengths =
        (default : FiltersFullState).registry.band_wavelengths ∧
      (default : FiltersFullState).registry.transmissions =
        (default : FiltersFullState).registry.transmissions ∧
      (default : FiltersFullState).registry.min_waves =
        (default : FiltersFullState).registry.min_waves ∧
      (default : FiltersFullState).registry.max_waves =
        (default : FiltersFullState).registry.max_waves ∧
      (default : FiltersFullState).registry.filter_integrals =
        (default : FiltersFullState).registry.filter_integrals ∧
      (default : FiltersFullState).registry.band_offsets =
        (default : FiltersFullState).registry.band_offsets :=
  C9_process_preserves_registry id 1 1 0 default default default []
    (by with_unfolding_all decide)

/-- The unclamped power-law radii of `tde_photosphere.process` for the
entries from `ilumzero` onward:
`rphot2 = (Rph_0 * a_p * luminosities[ilumzero:] / Ledd) ** l`
before the lower clamp is applied. -/
def tdeRphot2Raw (cbrt powl : ℚ → ℚ) (Gval Msun Cval pival DAYval : ℚ)
    (Mh Rph0 : ℚ) (times luminosities : List ℚ) : List ℚ :=
  let ilumzero := luminosities.countP fun x => decide (x ≤ 0)
  let Ledd := 4 * pival * Gval * Mh * Msun * Cval / kappa_t
  let tpeak := times.getD (argmaxIdx luminosities) 0
  let til := times.getD ilumzero 0
  let a_p := cbrt (Gval * Mh * Msun * ((tpeak - til) * DAYval / pival) ^ 2)
  (luminosities.drop ilumzero).map fun L => powl (Rph0 * a_p * L / Ledd)

/-- C10: with at least one positive luminosity, every returned
photosphere radius from the first accretion index onward is at least
`rphotmin = r_isco` (the lower clamp IS assigned), and the returned
radii equal the lower-clamped power-law values — the upper clamp
`np.where(rphot2 > rphotmax, rphotmax, rphot2)` is computed but its
result discarded, so the output does not depend on `rphotmax = 2 * a_t`
(no `a_t` term occurs on the right-hand side). -/
theorem C10_tde_lower_clamp_only (cbrt powl : ℚ → ℚ)
    (Gval Msun Cval pival DAYval Mh Rph0 : ℚ) (times luminosities : List ℚ)
    (hpos : ∃ L ∈ luminosities, 0 < L) :
    (∀ r ∈ (tdeRphot cbrt powl Gval Msun Cval pival DAYval Mh Rph0 times
        luminosities).drop (luminosities.countP fun x => decide (x ≤ 0)),
      tdeRphotmin Gval Msun Cval Mh ≤ r) ∧
    tdeRphot cbrt powl Gval Msun Cval pival DAYval Mh Rph0 times luminosities =
      (List.replicate (luminosities.countP fun x => decide (x ≤ 0)) (1 : ℚ)).map
          (fun o => o * tdeRphotmin Gval Msun Cval Mh) ++
        (tdeRphot2Raw cbrt powl Gval Msun Cval pival DAYval Mh Rph0 times
            luminosities).map
          (fun v => if v < tdeRphotmin Gval Msun Cval Mh then
              tdeRphotmin Gval Msun Cval Mh else v) := by
  have hne : ¬ ((luminosities.countP fun x => decide (x ≤ 0)) =
      luminosities.length) := by
    intro heq
    obtain ⟨L, hL, hLpos⟩ := hpos
    have hle := List.countP_eq_length.mp heq L hL
    rw [decide_eq_true_iff] at hle
    exact absurd hLpos (not_lt.mpr hle)
  have heq : tdeRphot cbrt powl Gval Msun Cval pival DAYval Mh Rph0 times
      luminosities =
      (List.replicate (luminosities.countP fun x => decide (x ≤ 0)) (1 : ℚ)).map
          (fun o => o * tdeRphotmin Gval Msun Cval Mh) ++
        (tdeRphot2Raw cbrt powl Gval Msun Cval pival DAYval Mh Rph0 times
            luminosities).map
          (fun v => if v < tdeRphotmin Gval Msun Cval Mh then
              tdeRphotmin Gval Msun Cval Mh else v) := by
    simp only [tdeRphot, tdeRphot2Raw, tdeRphotmin]
    rw [if_neg hne]
  refine ⟨?_, heq⟩
  rw [heq]
  have hlen : ((List.replicate (luminosities.countP fun x => decide (x ≤ 0))
      (1 : ℚ)).map (fun o => o * tdeRphotmin Gval Msun Cval Mh)).length =
      luminosities.countP fun x => decide (x ≤ 0) := by
    simp
  rw [List.drop_left' hlen]
  intro r hr
  obtain ⟨v, hv, rfl⟩ := List.mem_map.mp hr
  by_cases hc : v < tdeRphotmin Gval Msun Cval Mh
  · simp [hc]
  · simp only [hc, if_false]
    exact not_lt.mp hc

/-- C10 witness: times `[0, 1]`, luminosities `[0, 1]` (one positive),
all abstracted operations the identity and all constants 1. -/
theorem C10_witness :
    (∀ r ∈ (tdeRphot id id 1 1 1 1 1 1 1 [0, 1] [0, 1]).drop
        (([0, 1] : List ℚ).countP fun x => decide (x ≤ 0)),
      tdeRphotmin 1 1 1 1 ≤ r) ∧
    tdeRphot id id 1 1 1 1 1 1 1 [0, 1] [0, 1] =
      (List.replicate (([0, 1] : List ℚ).countP fun x => decide (x ≤ 0)) (1 : ℚ)).map
          (fun o => o * tdeRphotmin 1 1 1 1) ++
        (tdeRphot2Raw id id 1 1 1 1 1 1 1 [0, 1] [0, 1]).map
          (fun v => if v < tdeRphotmin 1 1 1 1 then tdeRphotmin 1 1 1 1 else v) :=
  C10_tde_lower_clamp_only id id 1 1 1 1 1 1 1 [0, 1] [0, 1]
    ⟨1, by simp, by norm_num⟩

/-- C1: evaluating the construction loop on one band `"V"` and one rule
declaring systems `["S1", "S2"]`.  Because each append pushes a
reference to the same dict, BOTH emitted entries carry the LAST
permutation's system `"S2"`; the claim requires the first entry to carry
`"S1"` (each entry "exactly that combination's" values), as
`buildRegistry_spec` does.  The registry the code builds differs from
the claimed one. -/
theorem C1_registry_aliasing :
    buildRegistry_code aliasBands aliasRules =
      [⟨['V'], ['S', '2'], [], []⟩, ⟨['V'], ['S', '2'], [], []⟩] ∧
    buildRegistry_spec aliasBands aliasRules =
      [⟨['V'], ['S', '1'], [], []⟩, ⟨['V'], ['S', '2'], [], []⟩] ∧
    buildRegistry_code aliasBands aliasRules ≠
      buildRegistry_spec aliasBands aliasRules := by decide

/-- C3 failing state: two bands `"B"` (index 0) and `"V"` (index 1),
both with a flat unit transmission on `[0, 4]` (integral 4). -/
def c3state : FiltersState :=
  { unique_bands := [⟨['B'], [], [], []⟩, ⟨['V'], [], [], []⟩]
    band_wavelengths := [[0, 4], [0, 4]]
    transmissions := [[1, 1], [1, 1]]
    min_waves := [0, 0]
    max_waves := [4, 4]
    filter_integrals := [4, 4]
    band_offsets := [0, 0] }

/-- C3 failing kwargs: observations `["V", "B"]` (so the band indices
are `[1, 0]`), band 0 sampled on `[0, 1, 2]` (spacing 1), band 1 on
`[0, 2, 4]` (spacing 2), unit SEDs. -/
def c3kwargs : ProcessKwargs :=
  { all_bands := [['V'], ['B']]
    samplewavelengths := [[0, 1, 2], [0, 2, 4]]
    lumdist := 1
    luminosities := [1, 1]
    seds := [[1, 1, 1], [1, 1, 1]]
    systems := [[], []]
    instruments := [[], []]
    bandsets := [[], []] }

/-- C3: the code indexes the per-observation `_dxs` list with the BAND
index (`self._dxs[bi]`), so observation 0 (band 1, grid spacing 2) is
integrated with spacing 1 and observation 1 (band 0, grid spacing 1)
with spacing 2, giving effective fluxes `[1/2, 1]`; the claim's
per-observation spacing gives `[1, 1/2]`.  The two pipelines disagree on
this input. -/
theorem C3_dx_indexed_by_band :
    processFluxes c3state c3kwargs = some [(1 / 2, 0), (1, 0)] ∧
    processFluxes_spec c3state c3kwargs = some [(1, 0), (1 / 2, 0)] ∧
    processFluxes c3state c3kwargs ≠ processFluxes_spec c3state c3kwargs := by
  with_unfolding_all decide

/-- C4 (counterexample): a band whose curve is flat at 1 on `[0, 1]`
(so `max_wavelength = 1`), sampled on the grid `[0, 1, 2]`.  The grid
point 2 lies beyond the curve's domain, yet `np.interp` clamps it to the
edge transmission 1 and the trapezoidal sum includes it: the raw flux is
2, not the 3/2 obtained when the outside point contributes nothing. -/
theorem C4_counterexample_outside_contributes :
    loadBand [((0 : ℚ), (1 : ℚ)), (1, 1)] = some ⟨[0, 1], [1, 1], 0, 1, 1⟩ ∧
    npInterp [0, 1, 2] [0, 1] [1, 1] = [1, 1, 1] ∧
    (1 : ℚ) < 2 ∧
    trapzDx 1 (((npInterp [0, 1, 2] [0, 1] [1, 1]).zip [1, 1, 1]).map
      fun p => p.1 * p.2) = 2 ∧
    trapzDx 1 [1, 1, 0] = 3 / 2 ∧
    (2 : ℚ) ≠ 3 / 2 := by with_unfolding_all decide

theorem interpPoint_left_clamp (x : ℚ) (p : ℚ × ℚ) (rest : List (ℚ × ℚ))
    (hs : List.Chain' (fun a b : ℚ × ℚ => a.1 < b.1) (p :: rest))
    (hx : x ≤ p.1) :
    interpPoint x (p :: rest) = p.2 := by
  cases rest with
  | nil => rfl
  | cons q t =>
    obtain ⟨hpq, -⟩ := List.chain'_cons.mp hs
    rw [show interpPoint x (p :: q :: t) =
      (if x < p.1 then p.2
       else if x ≤ q.1 then p.2 + (q.2 - p.2) * (x - p.1) / (q.1 - p.1)
       else interpPoint x (q :: t)) from rfl]
    by_cases h1 : x < p.1
    · rw [if_pos h1]
    · rw [if_neg h1]
      have hxp : x = p.1 := le_antisymm hx (not_lt.mp h1)
      have h2 : x ≤ q.1 := by rw [hxp]; exact le_of_lt hpq
      rw [if_pos h2, hxp]
      simp

theorem interpPoint_right_clamp (x : ℚ) (pairs : List (ℚ × ℚ))
    (hs : List.Chain' (fun a b : ℚ × ℚ => a.1 < b.1) pairs)
    (hx : ∀ p ∈ pairs, p.1 ≤ x) :
    interpPoint x pairs = (pairs.getLast?.map Prod.snd).getD 0 := by
  induction pairs with
  | nil => rfl
  | cons p rest ih =>
    cases rest with
    | nil => rfl
    | cons q t =>
      obtain ⟨hpq, hs'⟩ := List.chain'_cons.mp hs
      have hpx : p.1 ≤ x := hx p (by simp)
      have hqx : q.1 ≤ x := hx q (by simp)
      rw [show interpPoint x (p :: q :: t) =
        (if x < p.1 then p.2
         else if x ≤ q.1 then p.2 + (q.2 - p.2) * (x - p.1) / (q.1 - p.1)
         else interpPoint x (q :: t)) from rfl]
      rw [if_neg (not_lt.mpr hpx)]
      by_cases hxq : x ≤ q.1
      · have hxeq : x = q.1 := le_antisymm hxq hqx
        cases t with
        | nil =>
          rw [if_pos hxq, List.getLast?_cons_cons, hxeq]
          have hd : q.1 - p.1 ≠ 0 := sub_ne_zero.mpr (ne_of_gt hpq)
          rw [mul_div_assoc, div_self hd, mul_one]
          simp [List.getLast?]
        | cons r' t' =>
          exfalso
          obtain ⟨hqr, -⟩ := List.chain'_cons.mp hs'
          have hr'x : r'.1 ≤ x := hx r' (by simp)
          rw [hxeq] at hr'x
          exact absurd hqr (not_lt.mpr hr'x)
      · rw [if_neg hxq, List.getLast?_cons_cons]
        exact ih hs' fun p' hp' => hx p' (List.mem_cons_of_mem _ hp')

/-- C4 (amended): the interpolation CLAMPS at the curve's domain edges —
a grid point at or below `min_wavelength` takes the first transmission
value and a grid point at or above `max_wavelength` takes the last — so
there is no extrapolation, but outside points DO contribute the clamped
edge value times the SED sample to the sum; they contribute nothing only
when the edge transmission is zero. -/
theorem C4_interp_clamps_at_edges (x : ℚ) (p0 : ℚ × ℚ) (rest : List (ℚ × ℚ))
    (hs : List.Chain' (fun a b : ℚ × ℚ => a.1 < b.1) (p0 :: rest)) :
    (x ≤ p0.1 → interpPoint x (p0 :: rest) = p0.2) ∧
    ((∀ q ∈ p0 :: rest, q.1 ≤ x) →
      interpPoint x (p0 :: rest) = (((p0 :: rest).getLast?).map Prod.snd).getD 0) :=
  ⟨fun hx => interpPoint_left_clamp x p0 rest hs hx,
   fun hx => interpPoint_right_clamp x (p0 :: rest) hs hx⟩

/-- C4 witness: on the two-point curve `[(0, 1), (1, 2)]`, the point 5
beyond the domain takes the last transmission value 2. -/
theorem C4_witness :
    interpPoint 5 [((0 : ℚ), (1 : ℚ)), (1, 2)] =
      ((([((0 : ℚ), (1 : ℚ)), (1, 2)]).getLast?).map Prod.snd).getD 0 :=
  (C4_interp_clamps_at_edges 5 (0, 1) [(1, 2)]
    (List.chain'_cons.mpr ⟨by norm_num, List.chain'_singleton _⟩)).2
    (by with_unfolding_all decide)

theorem foldl_min_le_mem (x : ℚ) (xs : List ℚ) :
    ∀ b ∈ x :: xs, xs.foldl min x ≤ b := by
  induction xs generalizing x with
  | nil =>
    intro b hb
    simp only [List.mem_singleton] at hb
    subst hb
    simp
  | cons y ys ih =>
    intro b hb
    rw [List.foldl_cons]
    rcases List.mem_cons.mp hb with rfl | hb' 
    · calc ys.foldl min (min b y) ≤ min b y := ih (min b y) (min b y) (by simp)
        _ ≤ b := min_le_left _ _
    · rcases List.mem_cons.mp hb' with rfl | hb2
      · calc ys.foldl min (min x b) ≤ min x b := ih (min x b) (min x b) (by simp)
          _ ≤ b := min_le_right _ _
      · exact ih (min x y) b (List.mem_cons_of_mem _ hb2)

theorem foldl_min_mem (x : ℚ) (xs : List ℚ) : xs.foldl min x ∈ x :: xs := by
  induction xs generalizing x with
  | nil => simp
  | cons y ys ih =>
    rw [List.foldl_cons]
    rcases List.mem_cons.mp (ih (min x y)) with heq | hmem
    · rcases min_choice x y with hc | hc
      · rw [heq, hc]; simp
      · rw [heq, hc]; simp
    · exact List.mem_cons_of_mem _ (List.mem_cons_of_mem _ hmem)

theorem mem_le_foldl_max (x : ℚ) (xs : List ℚ) :
    ∀ b ∈ x :: xs, b ≤ xs.foldl max x := by
  induction xs generalizing x with
  | nil =>
    intro b hb
    simp only [List.mem_singleton] at hb
    subst hb
    simp
  | cons y ys ih =>
    intro b hb
    rw [List.foldl_cons]
    rcases List.mem_cons.mp hb with rfl | hb' 
    · calc b ≤ max b y := le_max_left _ _
        _ ≤ ys.foldl max (max b y) := ih (max b y) (max b y) (by simp)
    · rcases List.mem_cons.mp hb' with rfl | hb2
      · calc b ≤ max x b := le_max_right _ _
          _ ≤ ys.foldl max (max x b) := ih (max x b) (max x b) (by simp)
      · exact ih (max x y) b (List.mem_cons_of_mem _ hb2)

theorem foldl_max_mem (x : ℚ) (xs : List ℚ) : xs.foldl max x ∈ x :: xs := by
  induction xs generalizing x with
  | nil => simp
  | cons y ys ih =>
    rw [List.foldl_cons]
    rcases List.mem_cons.mp (ih (max x y)) with heq | hmem
    · rcases max_choice x y with hc | hc
      · rw [heq, hc]; simp
      · rw [heq, hc]; simp
    · exact List.mem_cons_of_mem _ (List.mem_cons_of_mem _ hmem)

theorem foldl_min_eq_sorted_headD (x : ℚ) (xs : List ℚ) :
    xs.foldl min x = ((x :: xs).insertionSort (· ≤ ·)).headD 0 := by
  have hperm : ((x :: xs).insertionSort (· ≤ ·)).Perm (x :: xs) :=
    List.perm_insertionSort _ _
  have hsorted : List.Sorted (· ≤ ·) ((x :: xs).insertionSort (· ≤ ·)) :=
    List.sorted_insertionSort _ _
  cases hseq : (x :: xs).insertionSort (· ≤ ·) with
  | nil =>
    exfalso
    have := hperm.length_eq
    rw [hseq] at this
    simp at this
  | cons a t =>
    rw [List.headD_cons]
    rw [hseq] at hperm hsorted
    apply le_antisymm
    · exact foldl_min_le_mem x xs a (hperm.subset (by simp))
    · have hm : xs.foldl min x ∈ a :: t := hperm.mem_iff.mpr (foldl_min_mem x xs)
      rcases List.mem_cons.mp hm with heq | hm'
      · rw [heq]
      · exact (List.pairwise_cons.mp hsorted).1 _ hm'

theorem getLastD_cons_mem (t : List ℚ) : ∀ c : ℚ, (c :: t).getLastD 0 ∈ c :: t := by
  induction t with
  | nil => intro c; simp
  | cons d t' ih =>
    intro c
    have h : (c :: d :: t').getLastD 0 = (d :: t').getLastD 0 := by
      simp [List.getLastD]
    rw [h]
    exact List.mem_cons_of_mem _ (ih d)

theorem sorted_mem_le_getLastD :
    ∀ l : List ℚ, List.Sorted (· ≤ ·) l → ∀ b ∈ l, b ≤ l.getLastD 0 := by
  intro l
  induction l with
  | nil => intro _ b hb; simp at hb
  | cons a t ih =>
    intro hs b hb
    cases t with
    | nil =>
      simp only [List.mem_singleton] at hb
      subst hb
      simp
    | cons c t' =>
      have hs' : List.Sorted (· ≤ ·) (c :: t') := (List.pairwise_cons.mp hs).2
      have hlast : (a :: c :: t').getLastD 0 = (c :: t').getLastD 0 := by
        simp [List.getLastD]
      rw [hlast]
      rcases List.mem_cons.mp hb with rfl | hb'
      · exact (List.pairwise_cons.mp hs).1 _ (getLastD_cons_mem t' c)
      · exact ih hs' b hb'

theorem foldl_max_eq_sorted_getLastD (x : ℚ) (xs : List ℚ) :
    xs.foldl max x = ((x :: xs).insertionSort (· ≤ ·)).getLastD 0 := by
  have hperm : ((x :: xs).insertionSort (· ≤ ·)).Perm (x :: xs) :=
    List.perm_insertionSort _ _
  have hsorted : List.Sorted (· ≤ ·) ((x :: xs).insertionSort (· ≤ ·)) :=
    List.sorted_insertionSort _ _
  cases hseq : (x :: xs).insertionSort (· ≤ ·) with
  | nil =>
    exfalso
    have := hperm.length_eq
    rw [hseq] at this
    simp at this
  | cons a t =>
    rw [hseq] at hperm hsorted
    apply le_antisymm
    · exact sorted_mem_le_getLastD (a :: t) hsorted _
        (hperm.mem_iff.mpr (foldl_max_mem x xs))
    · exact mem_le_foldl_max x xs _ (hperm.subset (getLastD_cons_mem t a))

theorem trapzXY_eq_trapezoidArea (ys xs : List ℚ) (h : ys.length = xs.length) :
    trapzXY ys xs = trapezoidArea xs ys := by
  induction xs generalizing ys with
  | nil =>
    rw [List.length_nil, List.length_eq_zero] at h
    subst h
    rfl
  | cons x1 xs1 ih =>
    cases ys with
    | nil => simp at h
    | cons y1 ys1 =>
      cases xs1 with
      | nil =>
        rw [List.length_cons, List.length_cons, List.length_nil,
          Nat.succ_inj, List.length_eq_zero] at h
        subst h
        rfl
      | cons x2 xs2 =>
        cases ys1 with
        | nil => simp at h
        | cons y2 ys2 =>
          have hlen : (y2 :: ys2).length = (x2 :: xs2).length := by
            simpa using h
          rw [show trapzXY (y1 :: y2 :: ys2) (x1 :: x2 :: xs2) =
            (x2 - x1) * (y1 + y2) / 2 + trapzXY (y2 :: ys2) (x2 :: xs2) from rfl]
          rw [ih (y2 :: ys2) hlen]
          unfold trapezoidArea
          simp only [List.length_cons]
          rw [show xs2.length + 1 + 1 - 1 = xs2.length + 1 from rfl,
            show xs2.length + 1 - 1 = xs2.length from rfl]
          rw [Finset.sum_range_succ']
          simp only [List.getD_cons_succ, List.getD_cons_zero]
          ring

/-- C8: for every successfully loaded band, the stored `integral` is the
trapezoidal area under the band's own `(wavelengths, transmission)`
curve on its native grid, and `min_wavelength` / `max_wavelength` are
the first and last elements of the sorted wavelength samples. -/
theorem C8_loadBand_invariants (rows : List (ℚ × ℚ)) (lb : LoadedBand)
    (h : loadBand rows = some lb) :
    lb.integral = trapezoidArea lb.wavelengths lb.transmission ∧
    lb.min_wavelength = (lb.wavelengths.insertionSort (· ≤ ·)).headD 0 ∧
    lb.max_wavelength = (lb.wavelengths.insertionSort (· ≤ ·)).getLastD 0 := by
  cases rows with
  | nil => exact Option.noConfusion h
  | cons r rs =>
    rw [show loadBand (r :: rs) = some
      ⟨(r :: rs).map Prod.fst, (r :: rs).map Prod.snd,
        (rs.map Prod.fst).foldl min r.1, (rs.map Prod.fst).foldl max r.1,
        trapzXY ((r :: rs).map Prod.snd) ((r :: rs).map Prod.fst)⟩ from rfl] at h
    obtain rfl : lb = ⟨(r :: rs).map Prod.fst, (r :: rs).map Prod.snd,
        (rs.map Prod.fst).foldl min r.1, (rs.map Prod.fst).foldl max r.1,
        trapzXY ((r :: rs).map Prod.snd) ((r :: rs).map Prod.fst)⟩ :=
      (Option.some.injEq _ _ ▸ h).symm
    refine ⟨?_, ?_, ?_⟩
    · exact trapzXY_eq_trapezoidArea _ _ (by simp)
    · exact foldl_min_eq_sorted_headD r.1 (rs.map Prod.fst)
    · exact foldl_max_eq_sorted_getLastD r.1 (rs.map Prod.fst)

/-- C8 witness: the two-row table `[(0, 1), (1, 2)]` loads with
integral 3/2, minimum wavelength 0 and maximum wavelength 1. -/
theorem C8_witness :
    (⟨[0, 1], [1, 2], 0, 1, trapzXY [1, 2] [0, 1]⟩ : LoadedBand).integral =
        trapezoidArea
          (⟨[0, 1], [1, 2], 0, 1, trapzXY [1, 2] [0, 1]⟩ : LoadedBand).wavelengths
          (⟨[0, 1], [1, 2], 0, 1, trapzXY [1, 2] [0, 1]⟩ : LoadedBand).transmission ∧
      (⟨[0, 1], [1, 2], 0, 1, trapzXY [1, 2] [0, 1]⟩ : LoadedBand).min_wavelength =
        (((⟨[0, 1], [1, 2], 0, 1, trapzXY [1, 2] [0, 1]⟩ : LoadedBand).wavelengths.insertionSort
          (· ≤ ·)).headD 0) ∧
      (⟨[0, 1], [1, 2], 0, 1, trapzXY [1, 2] [0, 1]⟩ : LoadedBand).max_wavelength =
        (((⟨[0, 1], [1, 2], 0, 1, trapzXY [1, 2] [0, 1]⟩ : LoadedBand).wavelengths.insertionSort
          (· ≤ ·)).getLastD 0) :=
  C8_loadBand_invariants [(0, 1), (1, 2)]
    ⟨[0, 1], [1, 2], 0, 1, trapzXY [1, 2] [0, 1]⟩ (by with_unfolding_all decide)
